import Mathlib

/-!
Verification of `utilities/allocstats.py`: a single-pass slab-allocation
leak tracker.  The script replays `slab: allocated/freed` events from a
log file into a dictionary keyed by address and prints the survivors as
a column-aligned table.  Below we embed the script shallowly: the
tokenisation (`line.strip().split(' ', 6)`), the event replay, the
width computation and the rendering, plus the top-level argument check.
-/

namespace Allocstats

/-- Characters treated as whitespace by Python's `str.strip()`. -/
def pyIsSpace (c : Char) : Bool :=
  c = ' ' || c = '\t' || c = '\n' || c = '\r' || c = '\x0b' || c = '\x0c'

/-- Python `str.strip()`: drop leading and trailing whitespace. -/
def pyStrip (l : List Char) : List Char :=
  ((l.dropWhile pyIsSpace).reverse.dropWhile pyIsSpace).reverse

/-- Break a character list at the first space: the part before it and the
part after it, or `none` when there is no space. -/
def breakAtSpace : List Char → Option (List Char × List Char)
  | [] => none
  | c :: rest =>
    if c = ' ' then some ([], rest)
    else (breakAtSpace rest).map (fun p => (c :: p.1, p.2))

/-- Python `s.split(' ', n)`: split on single spaces, at most `n` splits;
the remainder after the last split is kept whole, spaces included. -/
def splitLimit : Nat → List Char → List (List Char)
  | 0, s => [s]
  | n + 1, s =>
    match breakAtSpace s with
    | none => [s]
    | some (a, b) => a :: splitLimit n b

/-- The token list of a log line: `line.strip().split(' ', 6)`. -/
def tokens (line : String) : List String :=
  (splitLimit 6 (pyStrip line.data)).map (fun cs => String.mk cs)

/-- The `i`-th token (0-based, as in the Python source) of a line. -/
def tok (line : String) (i : Nat) : String :=
  (tokens line).getD i ""

/-- A line qualifies as an event: exactly 7 tokens and first token `slab:`
(the script skips every other line). -/
def isEvent (line : String) : Bool :=
  (tokens line).length == 7 && tok line 0 == "slab:"

/-- A qualifying line whose verb (token index 1) is `allocated`. -/
def isAllocEvent (line : String) : Bool :=
  isEvent line && tok line 1 == "allocated"

/-- A qualifying line whose verb (token index 1) is `freed`. -/
def isFreeEvent (line : String) : Bool :=
  isEvent line && tok line 1 == "freed"

/-- The `allocations` dictionary: entries `(address, cacheName, caller)`.
An association list embeds the Python `dict`. -/
abbrev Ledger : Type := List (String × String × String)

/-- The empty dictionary `allocations = {}`. -/
def emptyLedger : Ledger := []

/-- `allocations[k] = [v.1, v.2]`: overwrite the entry for `k` when one
is live, otherwise add a new entry. -/
def ledgerInsert : Ledger → String → String × String → Ledger
  | [], k, v => [(k, v.1, v.2)]
  | e :: rest, k, v =>
    if e.1 = k then (k, v.1, v.2) :: rest else e :: ledgerInsert rest k v

/-- `del allocations[k]` with `KeyError` swallowed: remove the entry for
`k` when present, otherwise do nothing. -/
def ledgerErase : Ledger → String → Ledger
  | [], _ => []
  | e :: rest, k =>
    if e.1 = k then ledgerErase rest k else e :: ledgerErase rest k

/-- Dictionary lookup: the `(cacheName, caller)` pair stored for `k`. -/
def ledgerLookup : Ledger → String → Option (String × String)
  | [], _ => none
  | e :: rest, k => if e.1 = k then some e.2 else ledgerLookup rest k

/-- The addresses holding live entries. -/
def ledgerKeys (led : Ledger) : List String := led.map (fun e => e.1)

/-- One iteration of the replay loop: skip non-qualifying lines, record
`allocated` events, drop `freed` ones, ignore unknown verbs. -/
def processLine (led : Ledger) (line : String) : Ledger :=
  if isEvent line = true then
    if tok line 1 = "allocated" then
      ledgerInsert led (tok line 2) (tok line 4, tok line 6)
    else if tok line 1 = "freed" then
      ledgerErase led (tok line 2)
    else led
  else led

/-- The ledger after replaying the whole log from the empty dictionary. -/
def allocations (lines : List String) : Ledger :=
  lines.foldl processLine emptyLedger

/-- `addr_width`: the running maximum of the address lengths, from 0. -/
def addr_width (led : Ledger) : Nat :=
  led.foldl (fun w e => max w e.1.length) 0

/-- `name_width`: the running maximum of the cache-name lengths, from 0. -/
def name_width (led : Ledger) : Nat :=
  led.foldl (fun w e => max w e.2.1.length) 0

/-- Python `str.ljust`: pad with spaces on the right up to width `w`;
a string already at least `w` long is returned unchanged. -/
def ljust (s : String) (w : Nat) : String :=
  s ++ String.mk (List.replicate (w - s.length) ' ')

/-- One data row of the report. -/
def renderRow (aw nw : Nat) (e : String × String × String) : String :=
  ljust e.1 aw ++ " " ++ ljust e.2.1 nw ++ " " ++ e.2.2

/-- The full report: header row, separator row, one row per survivor. -/
def report (lines : List String) : List String :=
  let led := allocations lines
  let aw := addr_width led
  let nw := name_width led
  (ljust "Address" aw ++ " " ++ ljust "Cache" nw ++ " Caller")
    :: (ljust "=======" aw ++ " " ++ ljust "=====" nw ++ " ======")
    :: led.map (renderRow aw nw)

/-- The data rows of the report (everything below header and separator). -/
def reportRows (lines : List String) : List String :=
  (report lines).drop 2

/-- Outcome of one invocation of the script. -/
structure RunResult where
  exitCode : Nat
  stderrOut : List String
  openedFile : Bool
  stdout : List String
  deriving DecidableEq, Repr

/-- The usage message written on a bad argument count. -/
def usageMsg (prog : String) : String :=
  "Usage: " ++ prog ++ " <log file>\n"

/-- The whole script: `argv` includes the program name; `fileLines` stands
for reading a file's lines.  A wrong argument count exits with status 1
and a usage message before any file is touched. -/
def run (argv : List String) (fileLines : String → List String) : RunResult :=
  if argv.length ≠ 2 then
    { exitCode := 1
      stderrOut := [usageMsg (argv.headD "")]
      openedFile := false
      stdout := [] }
  else
    { exitCode := 0
      stderrOut := []
      openedFile := true
      stdout := report (fileLines (argv.getD 1 "")) }

/-- The spec's end-to-end example log. -/
def exampleLog : List String :=
  [ "slab: allocated 0x1000 size 64 kmalloc foo()"
  , "slab: allocated 0x2000 size 128 kmalloc bar()"
  , "slab: freed 0x1000 size 64 kmalloc foo()" ]

/-- A qualifying `allocated` line used in several concrete instances:
its tokens are `slab: allocated 0xA p q r s`. -/
def lineAlloc0xA : String := "slab: allocated 0xA p q r s"

/-- A qualifying `freed` line for the same address `0xA`. -/
def lineFree0xA : String := "slab: freed 0xA p q r s"

/-- A qualifying `allocated` line for a second address `0xB`. -/
def lineAlloc0xB : String := "slab: allocated 0xB t u v w"

/-- A two-entry ledger used in concrete instances. -/
def demoLedger : Ledger := [("0xA", "p", "q"), ("0xB", "r", "s")]

/-- A log whose qualifying lines are all `allocated` with distinct
addresses, plus one non-qualifying line. -/
def distinctAllocLog : List String := [lineAlloc0xA, "junk", lineAlloc0xB]

/-! ### Ledger lemmas -/

theorem ledgerLookup_insert_self (led : Ledger) (k : String) (v : String × String) :
    ledgerLookup (ledgerInsert led k v) k = some v := by
  induction led with
  | nil => simp [ledgerInsert, ledgerLookup]
  | cons e rest ih =>
    by_cases h : e.1 = k
    · simp [ledgerInsert, h, ledgerLookup]
    · simp [ledgerInsert, h, ledgerLookup, ih]

theorem ledgerLookup_insert_ne (led : Ledger) (k : String) (v : String × String)
    (a : String) (h : a ≠ k) :
    ledgerLookup (ledgerInsert led k v) a = ledgerLookup led a := by
  induction led with
  | nil => simp [ledgerInsert, ledgerLookup, Ne.symm h]
  | cons e rest ih =>
    by_cases he : e.1 = k
    · simp [ledgerInsert, he, ledgerLookup, Ne.symm h]
    · simp [ledgerInsert, he, ledgerLookup, ih]

theorem ledgerLookup_erase_self (led : Ledger) (k : String) :
    ledgerLookup (ledgerErase led k) k = none := by
  induction led with
  | nil => simp [ledgerErase, ledgerLookup]
  | cons e rest ih =>
    by_cases h : e.1 = k
    · simp [ledgerErase, h, ih]
    · simp [ledgerErase, h, ledgerLookup, ih]

theorem ledgerLookup_erase_ne (led : Ledger) (k : String) (a : String) (h : a ≠ k) :
    ledgerLookup (ledgerErase led k) a = ledgerLookup led a := by
  induction led with
  | nil => simp [ledgerErase]
  | cons e rest ih =>
    by_cases he : e.1 = k
    · simp [ledgerErase, he, ledgerLookup, Ne.symm h, ih]
    · simp [ledgerErase, he, ledgerLookup, ih]

theorem ledgerErase_of_lookup_none (led : Ledger) (k : String)
    (h : ledgerLookup led k = none) : ledgerErase led k = led := by
  induction led with
  | nil => simp [ledgerErase]
  | cons e rest ih =>
    by_cases he : e.1 = k
    · simp [ledgerLookup, he] at h
    · simp [ledgerLookup, he] at h
      simp [ledgerErase, he, ih h]

theorem ledgerKeys_insert (led : Ledger) (k : String) (v : String × String) :
    ledgerKeys (ledgerInsert led k v) =
      if k ∈ ledgerKeys led then ledgerKeys led else ledgerKeys led ++ [k] := by
  induction led with
  | nil => simp [ledgerInsert, ledgerKeys]
  | cons e rest ih =>
    simp only [ledgerKeys, List.map_cons] at ih ⊢
    by_cases he : e.1 = k
    · simp [ledgerInsert, he]
    · simp only [ledgerInsert, if_neg he, List.map_cons]
      rw [ih]
      by_cases hk : k ∈ List.map (fun e => e.1) rest
      · simp [hk, Ne.symm he]
      · simp [hk, Ne.symm he]

theorem ledgerKeys_insert_nodup (led : Ledger) (k : String) (v : String × String)
    (h : (ledgerKeys led).Nodup) : (ledgerKeys (ledgerInsert led k v)).Nodup := by
  rw [ledgerKeys_insert]
  by_cases hk : k ∈ ledgerKeys led
  · simpa [hk] using h
  · simp [hk, List.nodup_append, h]

theorem ledgerInsert_fresh (led : Ledger) (k : String) (v : String × String)
    (h : ledgerLookup led k = none) :
    ledgerInsert led k v = led ++ [(k, v.1, v.2)] := by
  induction led with
  | nil => simp [ledgerInsert]
  | cons e rest ih =>
    by_cases he : e.1 = k
    · simp [ledgerLookup, he] at h
    · simp [ledgerLookup, he] at h
      simp [ledgerInsert, he, ih h]

theorem ledgerErase_sublist (led : Ledger) (k : String) :
    (ledgerErase led k).Sublist led := by
  induction led with
  | nil => simp [ledgerErase]
  | cons e rest ih =>
    by_cases he : e.1 = k
    · simp only [ledgerErase, if_pos he]
      exact ih.cons e
    · simp only [ledgerErase, if_neg he]
      exact ih.cons₂ e

theorem ledgerKeys_erase_nodup (led : Ledger) (k : String)
    (h : (ledgerKeys led).Nodup) : (ledgerKeys (ledgerErase led k)).Nodup := by
  exact List.Nodup.sublist (List.Sublist.map _ (ledgerErase_sublist led k)) h

/-! ### The replay loop -/

theorem processLine_alloc (led : Ledger) (line : String)
    (h : isAllocEvent line = true) :
    processLine led line = ledgerInsert led (tok line 2) (tok line 4, tok line 6) := by
  simp only [isAllocEvent, Bool.and_eq_true, beq_iff_eq] at h
  simp [processLine, h.1, h.2]

theorem processLine_free (led : Ledger) (line : String)
    (h : isFreeEvent line = true) :
    processLine led line = ledgerErase led (tok line 2) := by
  simp only [isFreeEvent, Bool.and_eq_true, beq_iff_eq] at h
  simp [processLine, h.1, h.2]

theorem processLine_skip (led : Ledger) (line : String)
    (h : ¬ isEvent line = true) : processLine led line = led := by
  simp [processLine, h]

theorem processLine_nodup (led : Ledger) (line : String)
    (h : (ledgerKeys led).Nodup) : (ledgerKeys (processLine led line)).Nodup := by
  unfold processLine
  split
  · split
    · exact ledgerKeys_insert_nodup _ _ _ h
    · split
      · exact ledgerKeys_erase_nodup _ _ h
      · exact h
  · exact h

theorem foldl_processLine_nodup (lines : List String) (led : Ledger)
    (h : (ledgerKeys led).Nodup) :
    (ledgerKeys (lines.foldl processLine led)).Nodup := by
  induction lines generalizing led with
  | nil => exact h
  | cons l rest ih => exact ih _ (processLine_nodup led l h)

theorem allocations_keys_nodup (lines : List String) :
    (ledgerKeys (allocations lines)).Nodup := by
  exact foldl_processLine_nodup lines emptyLedger (by simp [emptyLedger, ledgerKeys])

/-- A dead address stays dead across any line that does not allocate it. -/
theorem ledgerLookup_processLine_none (led : Ledger) (line : String) (a : String)
    (h : ledgerLookup led a = none)
    (hna : ¬ (isAllocEvent line = true ∧ tok line 2 = a)) :
    ledgerLookup (processLine led line) a = none := by
  by_cases hev : isEvent line = true
  · by_cases hal : tok line 1 = "allocated"
    · have halloc : isAllocEvent line = true := by
        simp [isAllocEvent, hev, hal]
      have hne : a ≠ tok line 2 := fun he => hna ⟨halloc, he.symm⟩
      simp only [processLine, if_pos hev, if_pos hal]
      rw [ledgerLookup_insert_ne _ _ _ _ hne]
      exact h
    · by_cases hfr : tok line 1 = "freed"
      · simp only [processLine, if_pos hev, if_neg hal, if_pos hfr]
        by_cases hae : a = tok line 2
        · rw [hae]
          exact ledgerLookup_erase_self _ _
        · rw [ledgerLookup_erase_ne _ _ _ hae]
          exact h
      · simp only [processLine, if_pos hev, if_neg hal, if_neg hfr]
        exact h
  · simp only [processLine, if_neg hev]
    exact h

/-- A dead address stays dead across a whole suffix of the log that never
allocates it. -/
theorem foldl_processLine_lookup_none (lines : List String) (led : Ledger) (a : String)
    (h : ledgerLookup led a = none)
    (hna : ∀ l ∈ lines, ¬ (isAllocEvent l = true ∧ tok l 2 = a)) :
    ledgerLookup (lines.foldl processLine led) a = none := by
  induction lines generalizing led with
  | nil => exact h
  | cons l rest ih =>
    exact ih _ (ledgerLookup_processLine_none _ _ _ h (hna l (by simp)))
      (fun l' hl' => hna l' (by simp [hl']))

theorem ledgerLookup_append_none (led : Ledger) (e : String × String × String)
    (a : String) (h : ledgerLookup led a = none) (hne : a ≠ e.1) :
    ledgerLookup (led ++ [e]) a = none := by
  induction led with
  | nil => simp [ledgerLookup, Ne.symm hne]
  | cons f rest ih =>
    by_cases hf : f.1 = a
    · simp [ledgerLookup, hf] at h
    · simp [ledgerLookup, hf] at h ⊢
      exact ih h

/-- The entry recorded by a line when it is a qualifying `allocated`
event, `none` otherwise. -/
def allocEntry (line : String) : Option (String × String × String) :=
  if isAllocEvent line = true then some (tok line 2, tok line 4, tok line 6) else none

/-- Replaying a log whose qualifying lines are all `allocated` events with
fresh, pairwise-distinct addresses appends exactly their entries. -/
theorem foldl_allocs_append (lines : List String) (led : Ledger)
    (hev : ∀ l ∈ lines, isEvent l = true → tok l 1 = "allocated")
    (hfresh : ∀ l ∈ lines, isAllocEvent l = true → ledgerLookup led (tok l 2) = none)
    (hdist : ((lines.filterMap allocEntry).map (fun e => e.1)).Nodup) :
    lines.foldl processLine led = led ++ lines.filterMap allocEntry := by
  induction lines generalizing led with
  | nil => simp
  | cons l rest ih =>
    by_cases hl : isEvent l = true
    · have hverb := hev l (by simp) hl
      have halloc : isAllocEvent l = true := by
        simp [isAllocEvent, hl, hverb]
      have hfl := hfresh l (by simp) halloc
      have hstep : processLine led l = led ++ [(tok l 2, tok l 4, tok l 6)] := by
        rw [processLine_alloc led l halloc]
        exact ledgerInsert_fresh led _ _ hfl
      have hae : allocEntry l = some (tok l 2, tok l 4, tok l 6) := by
        simp [allocEntry, halloc]
      simp only [List.filterMap_cons, hae, List.map_cons, List.nodup_cons] at hdist
      have hfresh' : ∀ l' ∈ rest, isAllocEvent l' = true →
          ledgerLookup (led ++ [(tok l 2, tok l 4, tok l 6)]) (tok l' 2) = none := by
        intro l' hl' hal'
        apply ledgerLookup_append_none
        · exact hfresh l' (by simp [hl']) hal'
        · intro hEq
          apply hdist.1
          have hmem : (tok l' 2, tok l' 4, tok l' 6) ∈ rest.filterMap allocEntry :=
            List.mem_filterMap.mpr ⟨l', hl', by simp [allocEntry, hal']⟩
          have hmm : tok l' 2 ∈ (rest.filterMap allocEntry).map (fun e => e.1) :=
            List.mem_map_of_mem (fun e => e.1) hmem
          have hEq' : tok l' 2 = tok l 2 := hEq
          rw [← hEq']
          exact hmm
      have hrest := ih (led ++ [(tok l 2, tok l 4, tok l 6)])
        (fun l' hl' h' => hev l' (by simp [hl']) h') hfresh' hdist.2
      simp only [List.foldl_cons, hstep, List.filterMap_cons, hae]
      rw [hrest, List.append_assoc]
      simp
    · have hstep : processLine led l = led := processLine_skip led l hl
      have hae : allocEntry l = none := by
        simp [allocEntry, isAllocEvent, hl]
      simp only [List.filterMap_cons, hae] at hdist ⊢
      simp only [List.foldl_cons, hstep]
      exact ih led (fun l' hl' h' => hev l' (by simp [hl']) h')
        (fun l' hl' h' => hfresh l' (by simp [hl']) h') hdist

/-! ### Fold-max lemmas for the column widths -/

theorem init_le_foldl_max (f : String × String × String → Nat) :
    ∀ (l : Ledger) (i : Nat), i ≤ l.foldl (fun w e => max w (f e)) i := by
  intro l
  induction l with
  | nil => intro i; simp
  | cons e rest ih =>
    intro i
    exact le_trans (Nat.le_max_left i (f e)) (ih _)

theorem mem_le_foldl_max (f : String × String × String → Nat)
    (x : String × String × String) :
    ∀ (l : Ledger) (i : Nat), x ∈ l → f x ≤ l.foldl (fun w e => max w (f e)) i := by
  intro l
  induction l with
  | nil => intro i hx; cases hx
  | cons e rest ih =>
    intro i hx
    rcases List.mem_cons.mp hx with h | h
    · subst h
      exact le_trans (Nat.le_max_right i (f x)) (init_le_foldl_max f rest _)
    · exact ih _ h

theorem foldl_max_eq_init_or_mem (f : String × String × String → Nat) :
    ∀ (l : Ledger) (i : Nat), l.foldl (fun w e => max w (f e)) i = i ∨
      ∃ x ∈ l, l.foldl (fun w e => max w (f e)) i = f x := by
  intro l
  induction l with
  | nil => intro i; exact Or.inl rfl
  | cons e rest ih =>
    intro i
    rcases ih (max i (f e)) with h | h
    · rcases Nat.le_total (f e) i with hle | hle
      · left
        simp only [List.foldl_cons]
        rw [h, Nat.max_eq_left hle]
      · right
        refine ⟨e, by simp, ?_⟩
        simp only [List.foldl_cons]
        rw [h, Nat.max_eq_right hle]
    · obtain ⟨x, hx, hfx⟩ := h
      right
      refine ⟨x, by simp [hx], ?_⟩
      simp only [List.foldl_cons]
      exact hfx

/-! ### The claims -/

/-- C1, counterexample: on the spec's three-line example log the single
surviving entry is `("0x2000", "128", "bar()")` — the recorded cache name
is token 5 of the line (`"128"`), not `"kmalloc"` as the claim states. -/
theorem c1_cache_name_not_kmalloc :
    allocations exampleLog = [("0x2000", "128", "bar()")] ∧
    ("128" : String) ≠ "kmalloc" := by
  exact ⟨by decide, by decide⟩

/-- C1, amended: for the three-line example log the rendered report has
exactly one surviving entry, address `0x2000` with cache name `128` and
caller `bar()`. -/
theorem c1_example_report :
    allocations exampleLog = [("0x2000", "128", "bar()")] ∧
    report exampleLog =
      ["Address Cache Caller", "======= ===== ======", "0x2000 128 bar()"] := by
  exact ⟨by decide, by decide⟩

/-- C2: a qualifying `allocated` line sets or overwrites the ledger entry
keyed by its token 3 (index 2) to the pair of its token 5 (index 4, the
cache name) and token 7 (index 6, the caller); tokens 4 and 6 (indices 3
and 5) do not enter the state. -/
theorem c2_allocated_updates_ledger (led : Ledger) (line : String)
    (h : isAllocEvent line = true) :
    processLine led line = ledgerInsert led (tok line 2) (tok line 4, tok line 6) ∧
    ledgerLookup (processLine led line) (tok line 2) =
      some (tok line 4, tok line 6) := by
  refine ⟨processLine_alloc led line h, ?_⟩
  rw [processLine_alloc led line h]
  exact ledgerLookup_insert_self _ _ _

theorem c2_witness :
    isAllocEvent lineAlloc0xA = true ∧
    (processLine demoLedger lineAlloc0xA =
        ledgerInsert demoLedger (tok lineAlloc0xA 2)
          (tok lineAlloc0xA 4, tok lineAlloc0xA 6) ∧
      ledgerLookup (processLine demoLedger lineAlloc0xA) (tok lineAlloc0xA 2) =
        some (tok lineAlloc0xA 4, tok lineAlloc0xA 6)) :=
  ⟨by decide, c2_allocated_updates_ledger demoLedger lineAlloc0xA (by decide)⟩

/-- C3: a line with a token count other than 7 or whose first token is
not `slab:` is skipped: the ledger is unchanged and no error can arise
(`processLine` is a total function). -/
theorem c3_malformed_line_skipped (led : Ledger) (line : String)
    (h : (tokens line).length ≠ 7 ∨ tok line 0 ≠ "slab:") :
    processLine led line = led := by
  apply processLine_skip
  simp only [isEvent, Bool.and_eq_true, beq_iff_eq]
  rcases h with h | h
  · exact fun hc => h hc.1
  · exact fun hc => h hc.2

theorem c3_witness :
    ((tokens "junk").length ≠ 7 ∨ tok "junk" 0 ≠ "slab:") ∧
    processLine demoLedger "junk" = demoLedger :=
  ⟨by decide, c3_malformed_line_skipped demoLedger "junk" (by decide)⟩

/-- C4: a qualifying `freed` line for a dead address is a no-op on the
ledger; for a live address it removes exactly that entry: afterwards the
address is dead and every other address is untouched. -/
theorem c4_freed_no_op_or_remove (led : Ledger) (line : String)
    (h : isFreeEvent line = true) :
    (ledgerLookup led (tok line 2) = none → processLine led line = led) ∧
    ledgerLookup (processLine led line) (tok line 2) = none ∧
    ∀ a, a ≠ tok line 2 →
      ledgerLookup (processLine led line) a = ledgerLookup led a := by
  rw [processLine_free led line h]
  exact ⟨fun hn => ledgerErase_of_lookup_none led _ hn,
    ledgerLookup_erase_self _ _,
    fun a ha => ledgerLookup_erase_ne _ _ _ ha⟩

theorem c4_witness :
    isFreeEvent lineFree0xA = true ∧
    processLine [("0xB", "r", "s")] lineFree0xA = [("0xB", "r", "s")] ∧
    ledgerLookup (processLine demoLedger lineFree0xA) (tok lineFree0xA 2) = none ∧
    ledgerLookup (processLine demoLedger lineFree0xA) "0xB" =
      ledgerLookup demoLedger "0xB" :=
  ⟨by decide,
    (c4_freed_no_op_or_remove [("0xB", "r", "s")] lineFree0xA (by decide)).1
      (by decide),
    (c4_freed_no_op_or_remove demoLedger lineFree0xA (by decide)).2.1,
    (c4_freed_no_op_or_remove demoLedger lineFree0xA (by decide)).2.2 "0xB"
      (by decide)⟩

/-- C5: after replaying any log the ledger's addresses are pairwise
distinct (at most one live entry per address), and an `allocated` event
over any ledger — live address or not — leaves the entry for its address
holding the newest cache name and caller (last write wins). -/
theorem c5_one_entry_last_write_wins (lines : List String) (led : Ledger)
    (line : String) (h : isAllocEvent line = true) :
    (ledgerKeys (allocations lines)).Nodup ∧
    ledgerLookup (processLine led line) (tok line 2) =
      some (tok line 4, tok line 6) := by
  refine ⟨allocations_keys_nodup lines, ?_⟩
  rw [processLine_alloc led line h]
  exact ledgerLookup_insert_self _ _ _

theorem c5_witness :
    isAllocEvent lineAlloc0xA = true ∧
    ((ledgerKeys (allocations exampleLog)).Nodup ∧
      ledgerLookup (processLine demoLedger lineAlloc0xA) (tok lineAlloc0xA 2) =
        some (tok lineAlloc0xA 4, tok lineAlloc0xA 6)) :=
  ⟨by decide,
    c5_one_entry_last_write_wins exampleLog demoLedger lineAlloc0xA (by decide)⟩

/-- C6, counterexample: in the log `[alloc 0xA, free 0xA, alloc 0xA]` the
address `0xA` is allocated and later freed with no intervening
re-allocation between those two lines, yet it survives in the final
ledger — the claim as stated does not account for re-allocation after
the free. -/
theorem c6_realloc_after_free_survives :
    isAllocEvent lineAlloc0xA = true ∧ tok lineAlloc0xA 2 = "0xA" ∧
    isFreeEvent lineFree0xA = true ∧ tok lineFree0xA 2 = "0xA" ∧
    ledgerLookup (allocations [lineAlloc0xA, lineFree0xA, lineAlloc0xA]) "0xA" =
      some ("q", "s") := by
  exact ⟨by decide, by decide, by decide, by decide, by decide⟩

/-- C6, amended: an address allocated by a qualifying line and later
freed by a qualifying line, with no qualifying re-allocation of it after
that freeing line, does not appear in the final ledger. -/
theorem c6_freed_address_not_in_report (pre post : List String) (fl a : String)
    (_hal : ∃ l ∈ pre, isAllocEvent l = true ∧ tok l 2 = a)
    (hf : isFreeEvent fl = true) (ha : tok fl 2 = a)
    (hpost : ∀ l ∈ post, ¬ (isAllocEvent l = true ∧ tok l 2 = a)) :
    ledgerLookup (allocations (pre ++ fl :: post)) a = none := by
  unfold allocations
  rw [List.foldl_append, List.foldl_cons]
  apply foldl_processLine_lookup_none
  · rw [processLine_free _ _ hf, ha]
    exact ledgerLookup_erase_self _ _
  · exact hpost

theorem c6_witness :
    ledgerLookup (allocations ([lineAlloc0xA] ++ lineFree0xA :: [])) "0xA" = none :=
  c6_freed_address_not_in_report [lineAlloc0xA] [] lineFree0xA "0xA"
    ⟨lineAlloc0xA, by decide, by decide, by decide⟩
    (by decide) (by decide) (by simp)

/-- C7: when every qualifying line of the log is an `allocated` event and
their addresses are pairwise distinct, the final ledger is exactly the
list of recorded `(address, cacheName, caller)` entries, and the report's
data rows are exactly those entries rendered — nothing missing, nothing
extra. -/
theorem c7_distinct_allocs_report (lines : List String)
    (hev : ∀ l ∈ lines, isEvent l = true → tok l 1 = "allocated")
    (hdist : ((lines.filterMap allocEntry).map (fun e => e.1)).Nodup) :
    allocations lines = lines.filterMap allocEntry ∧
    reportRows lines = (lines.filterMap allocEntry).map
      (renderRow (addr_width (lines.filterMap allocEntry))
        (name_width (lines.filterMap allocEntry))) := by
  have h1 : allocations lines = lines.filterMap allocEntry := by
    have h := foldl_allocs_append lines emptyLedger hev
      (fun l _ _ => by simp [emptyLedger, ledgerLookup]) hdist
    simpa [allocations, emptyLedger] using h
  refine ⟨h1, ?_⟩
  simp [reportRows, report, h1]

theorem c7_witness :
    allocations distinctAllocLog = distinctAllocLog.filterMap allocEntry ∧
    reportRows distinctAllocLog = (distinctAllocLog.filterMap allocEntry).map
      (renderRow (addr_width (distinctAllocLog.filterMap allocEntry))
        (name_width (distinctAllocLog.filterMap allocEntry))) :=
  c7_distinct_allocs_report distinctAllocLog (by decide) (by decide)

/-- C8: `addr_width` bounds every surviving address length and is
attained (or the ledger is empty and it is 0); likewise `name_width` for
the cache names; and with no survivors the report is exactly the header
row and the separator row. -/
theorem c8_width_spec (lines : List String) :
    (∀ e ∈ allocations lines, e.1.length ≤ addr_width (allocations lines)) ∧
    (addr_width (allocations lines) = 0 ∨
      ∃ e ∈ allocations lines, e.1.length = addr_width (allocations lines)) ∧
    (∀ e ∈ allocations lines, e.2.1.length ≤ name_width (allocations lines)) ∧
    (name_width (allocations lines) = 0 ∨
      ∃ e ∈ allocations lines, e.2.1.length = name_width (allocations lines)) ∧
    (allocations lines = [] →
      report lines = ["Address Cache Caller", "======= ===== ======"]) := by
  refine ⟨?_, ?_, ?_, ?_, ?_⟩
  · intro e he
    exact mem_le_foldl_max (fun e => e.1.length) e _ _ he
  · rcases foldl_max_eq_init_or_mem (fun e => e.1.length) (allocations lines) 0 with
      h | ⟨x, hx, hfx⟩
    · exact Or.inl h
    · exact Or.inr ⟨x, hx, hfx.symm⟩
  · intro e he
    exact mem_le_foldl_max (fun e => e.2.1.length) e _ _ he
  · rcases foldl_max_eq_init_or_mem (fun e => e.2.1.length) (allocations lines) 0 with
      h | ⟨x, hx, hfx⟩
    · exact Or.inl h
    · exact Or.inr ⟨x, hx, hfx.symm⟩
  · intro h
    simp only [report, h]
    decide

theorem c8_witness :
    report [] = ["Address Cache Caller", "======= ===== ======"] :=
  (c8_width_spec []).2.2.2.2 rfl

/-- C9: invoked with an argument count other than one (`argv` including
the program name has length ≠ 2), the script writes the usage message to
standard error, exits with status 1, and never opens a file. -/
theorem c9_bad_arg_count (argv : List String) (fileLines : String → List String)
    (h : argv.length ≠ 2) :
    run argv fileLines =
      { exitCode := 1, stderrOut := [usageMsg (argv.headD "")],
        openedFile := false, stdout := [] } := by
  simp [run, h]

theorem c9_witness :
    (["prog"] : List String).length ≠ 2 ∧
    run ["prog"] (fun _ => []) =
      { exitCode := 1, stderrOut := [usageMsg "prog"],
        openedFile := false, stdout := [] } :=
  ⟨by decide, c9_bad_arg_count ["prog"] (fun _ => []) (by decide)⟩

/-- C10: a qualifying `allocated` or `freed` event changes at most the
ledger entry keyed by its own address token; every other address reads
the same before and after. -/
theorem c10_frame_other_addresses (led : Ledger) (line : String) (a : String)
    (hev : isAllocEvent line = true ∨ isFreeEvent line = true)
    (ha : a ≠ tok line 2) :
    ledgerLookup (processLine led line) a = ledgerLookup led a := by
  rcases hev with h | h
  · rw [processLine_alloc led line h]
    exact ledgerLookup_insert_ne _ _ _ _ ha
  · rw [processLine_free led line h]
    exact ledgerLookup_erase_ne _ _ _ ha

theorem c10_witness :
    (isAllocEvent lineAlloc0xA = true ∨ isFreeEvent lineAlloc0xA = true) ∧
    ("0xB" ≠ tok lineAlloc0xA 2) ∧
    ledgerLookup (processLine demoLedger lineAlloc0xA) "0xB" =
      ledgerLookup demoLedger "0xB" :=
  ⟨Or.inl (by decide), by decide,
    c10_frame_other_addresses demoLedger lineAlloc0xA "0xB"
      (Or.inl (by decide)) (by decide)⟩

end Allocstats
